import Mathlib

/-!
Verification of the SSH-config reconciliation engine of brev-cli
(`pkg/brevssh/ssh.go`, plus the legacy variant shipped as an unnamed file).

Modelling conventions:
* A line of configuration text is a `List Char`; a configuration text is a
  `List Line` (each line implicitly newline-terminated, matching the fact that
  every piece of text the reconciler produces ends in a newline).
* The third-party `kevinburke/ssh_config` library (Decode, Config.String,
  Config.Get, Host.Matches) is not part of the repository sources; those parts
  are modelled from the specification (see the doc comments starting with
  "Modelled from the spec").  Everything else is translated directly from the
  Go sources.
* Go maps of ports / host values are modelled as lists with `contains`
  membership; Go's nil-map semantics (reads yield zero values, writes fault)
  are modelled explicitly with `Option` for the claim about faulting code.
-/

/-- A single line of SSH configuration text. -/
abbrev Line : Type := List Char

/-- A configuration text: an ordered list of lines. -/
abbrev ConfigText : Type := List Line

/-- Whitespace test used for directive-line indentation (spaces and tabs). -/
def isWsChar (c : Char) : Bool := c = ' ' || c = '\t'

/-- Drop leading indentation of a directive line. -/
def trimLeftWs (l : Line) : Line := l.dropWhile isWsChar

/-- ASCII lower-casing of a character (for the case-insensitive host keyword). -/
def lowerChar (c : Char) : Char :=
  if 'A' ≤ c ∧ c ≤ 'Z' then Char.ofNat (c.toNat + 32) else c

/-- ASCII lower-casing of a line. -/
def lowerStr (l : Line) : Line := l.map lowerChar

/-- Split a line at every space character, keeping empty fields, exactly like
Go's `strings.Split(s, " ")`.  The result is always nonempty. -/
def splitOnSp : Line → List Line
  | [] => [[]]
  | c :: cs =>
    if c = ' ' then [] :: splitOnSp cs
    else
      match splitOnSp cs with
      | [] => [[c]]
      | f :: fs => (c :: f) :: fs

/-- Modelled from the spec: a line beginning with the host keyword
(case-insensitive) starts a new host block (§4.1); the keyword is the first
space-delimited token of the line.  This stands in for the block scanner of
the `ssh_config` library, which is not among the repository sources. -/
def isHostHeader (l : Line) : Bool :=
  lowerStr (l.takeWhile (fun c => c ≠ ' ')) = "host".toList

/-- An ordered document of blocks: preamble text followed by host blocks
(§3 of the spec).  Each host block keeps its raw lines. -/
structure ConfigDoc where
  preamble : ConfigText
  hosts : List ConfigText
deriving DecidableEq

/-- Modelled from the spec: the parser scans lines; a host-keyword line starts
a new host block and all lines up to the next header belong to the current
block; content before the first header is the preamble (§4.1).  Stands in for
`ssh_config.Decode`. -/
def parse : ConfigText → ConfigDoc
  | [] => { preamble := [], hosts := [] }
  | l :: rest =>
    let d := parse rest
    if isHostHeader l then { preamble := [], hosts := (l :: d.preamble) :: d.hosts }
    else { preamble := l :: d.preamble, hosts := d.hosts }

/-- Modelled from the spec: serialization concatenates each block's raw text in
document order with no reformatting (§4.1).  Stands in for
`ssh_config.Config.String`. -/
def serialize (d : ConfigDoc) : ConfigText := d.preamble ++ d.hosts.flatten

/-- Key/value reading of one directive line: first space-delimited token after
the indentation is the key, the remainder of the line after the single
separating space is the value (`Key Value` pairs, §4.1). -/
def lineKV (l : Line) : Option (Line × Line) :=
  let t := trimLeftWs l
  if t.isEmpty then none
  else some (t.takeWhile (fun c => c ≠ ' '), (t.dropWhile (fun c => c ≠ ' ')).drop 1)

/-- Directive lookup within a block: scan its lines for `Key Value` pairs,
first match wins, absence is a valid no-value result (§4.1). -/
def findKV (key : Line) : ConfigText → Option Line :=
  List.findSome? fun l =>
    match lineKV l with
    | some kv => if kv.1 = key then some kv.2 else none
    | none => none

/-- The directive key "IdentityFile". -/
def identityFileKey : Line := "IdentityFile".toList

/-- The directive key "Port". -/
def portKey : Line := "Port".toList

/-- Translation of `checkIfBrevHost` (ssh.go): a host is a brev host iff some
`Key Value` node has key exactly "IdentityFile" and value exactly equal to the
private-key path. -/
def checkIfBrevHost (host : ConfigText) (privateKeyPath : Line) : Bool :=
  host.any fun l => lineKV l == some (identityFileKey, privateKeyPath)

/-- Translation of `hostnameFromString` (ssh.go): the second space-delimited
token of the first line of the block text, or empty if there is none. -/
def hostnameFromString (hoststring : ConfigText) : Line :=
  match hoststring with
  | [] => []
  | h :: _ =>
    match splitOnSp h with
    | _ :: a :: _ => a
    | _ => []

/-- Translation of `checkIfHostIsActive` (ssh.go): the extracted alias equals
(string equality) some active workspace identifier. -/
def checkIfHostIsActive (hoststring : ConfigText) (activeWorksSpaces : List Line) : Bool :=
  activeWorksSpaces.contains (hostnameFromString hoststring)

/-- Translation of `createConfigEntry` (ssh.go): a non-brev host stays, a brev
host stays iff active, otherwise it is dropped. -/
def createConfigEntry (hoststring : ConfigText) (isBrevHost isActiveHost : Bool) : ConfigText :=
  if !isBrevHost then hoststring
  else if isBrevHost && isActiveHost then hoststring
  else []

/-- Translation of `MakeSSHEntry` / `workspaceSSHConfigTemplate` (ssh.go): the
rendered lines of a new managed entry, ending with a blank line. -/
def MakeSSHEntry (workspaceName port privateKeyPath : Line) : ConfigText :=
  [ "Host ".toList ++ workspaceName
  , "  Hostname 0.0.0.0".toList
  , "  IdentityFile ".toList ++ privateKeyPath
  , "  User brev".toList
  , "  Port ".toList ++ port
  , [] ]

/-- Translation of `GetBrevHostValues` (ssh.go): the extracted aliases of the
brev (managed) hosts, in document order. -/
def GetBrevHostValues (d : ConfigDoc) (privateKeyPath : Line) : List Line :=
  (d.hosts.filter fun b => checkIfBrevHost b privateKeyPath).map hostnameFromString

/-- Modelled from the spec: directive lookup by alias over the whole document —
the first host block whose alias equals the requested identifier and which
carries the directive provides the value (§4.1, §6).  Stands in for
`ssh_config.Config.Get`; yields `none` where the library yields its no-value
result. -/
def docGet (d : ConfigDoc) (name key : Line) : Option Line :=
  d.hosts.findSome? fun b =>
    if hostnameFromString b = name then findKV key b else none

/-- Translation of `GetBrevPorts` (ssh.go): the port looked up for each managed
alias (the library's empty-string no-value result is the empty line). -/
def GetBrevPorts (d : ConfigDoc) (hostnames : List Line) : List Line :=
  hostnames.map fun n => (docGet d n portKey).getD []

/-- Decimal digit character. -/
def digitChar (n : Nat) : Char := Char.ofNat (48 + n)

/-- Fueled decimal rendering of a natural number, most significant digit
first. -/
def natCharsCore : Nat → Nat → List Char
  | 0, _ => []
  | fuel + 1, n =>
    if n < 10 then [digitChar n]
    else natCharsCore fuel (n / 10) ++ [digitChar (n % 10)]

/-- Decimal rendering of a natural number, as produced by Go's
`strconv.Itoa` / `fmt.Sprint`. -/
def natChars (n : Nat) : List Char := natCharsCore (n + 1) n

/-- Numeric value of a decimal digit character. -/
def digitVal (c : Char) : Nat := c.toNat - 48

/-- Decimal value of a digit string (left inverse of `natChars`). -/
def charsVal (l : List Char) : Nat := l.foldl (fun acc c => acc * 10 + digitVal c) 0

/-- Translation of the port-probing loop `for ports[fmt.Sprint(port)] { port++ }`
(ssh.go); the fuel argument makes the loop structural, and
`probe_increasing`/`probe_spec` below show that `ports.length + 1` fuel always
finds the first unclaimed port. -/
def probe : Nat → List Line → Nat → Nat
  | 0, _, p => p
  | fuel + 1, ports, p =>
    if ports.contains (natChars p) then probe fuel ports (p + 1) else p

/-- Translation of the creation loop inside `CreateBrevSSHConfigEntries`
(ssh.go): walk the active identifiers; for each one not among the managed host
values, probe for the next free port starting from the carried counter, render
an entry, and record the port as used.  Returns the rendered blocks and the
identifier→port mapping. -/
def CreateEntriesLoop (privateKeyPath : Line) (brevHostValues : List Line) :
    List Line → List Line → Nat → List ConfigText × List (Line × Line)
  | [], _, _ => ([], [])
  | w :: ws, ports, p =>
    if brevHostValues.contains w then CreateEntriesLoop privateKeyPath brevHostValues ws ports p
    else
      let q := probe (ports.length + 1) ports p
      let r := CreateEntriesLoop privateKeyPath brevHostValues ws (natChars q :: ports) q
      (MakeSSHEntry w (natChars q) privateKeyPath :: r.1, (w, natChars q) :: r.2)

/-- Translation of `CreateBrevSSHConfigEntries` (ssh.go): append a rendered
entry for every active identifier without a managed host value, seeding the
port usage from `GetBrevPorts` over the managed host values, then re-decode the
extended text. -/
def CreateBrevSSHConfigEntries (privateKeyPath : Line) (active : List Line) (d : ConfigDoc) :
    ConfigDoc :=
  let vals := GetBrevHostValues d privateKeyPath
  let ports := GetBrevPorts d vals
  parse (serialize d ++ (CreateEntriesLoop privateKeyPath vals active ports 2222).1.flatten)

/-- The identifier→port mapping computed by `CreateBrevSSHConfigEntries` for
the newly created entries. -/
def createdMapping (privateKeyPath : Line) (active : List Line) (d : ConfigDoc) :
    List (Line × Line) :=
  (CreateEntriesLoop privateKeyPath (GetBrevHostValues d privateKeyPath) active
    (GetBrevPorts d (GetBrevHostValues d privateKeyPath)) 2222).2

/-- Translation of `DefaultSSHConfigurer.PruneInactiveWorkspaces` (ssh.go):
re-emit each host block through `createConfigEntry` and re-decode.  The
preamble block is emitted first and — per §3/§4.1 of the spec — is never
classified as managed, so it is always carried through. -/
def PruneInactiveWorkspaces (privateKeyPath : Line) (active : List Line) (d : ConfigDoc) :
    ConfigDoc :=
  parse (d.preamble ++
    (d.hosts.map fun b =>
      createConfigEntry b (checkIfBrevHost b privateKeyPath) (checkIfHostIsActive b active)).flatten)

/-- The pure document transformation of one reconciliation pass: stages
CreateEntries then PruneStale of `DefaultSSHConfigurer.Config` (ssh.go),
starting from the persisted text. -/
def reconcile (privateKeyPath : Line) (active : List Line) (t : ConfigText) : ConfigDoc :=
  PruneInactiveWorkspaces privateKeyPath active
    (CreateBrevSSHConfigEntries privateKeyPath active (parse t))

/-- Translation of `GetConfiguredWorkspacePort` (ssh.go): port lookup by alias
on the most recently loaded document; `none` is the no-value / NotFound
outcome. -/
def GetConfiguredWorkspacePort (d : ConfigDoc) (dns : Line) : Option Line :=
  docGet d dns portKey

/-- Patterns of a host block: the space-delimited fields of its header line
after the host keyword, empty fields dropped. -/
def hostPatterns (hoststring : ConfigText) : List Line :=
  match hoststring with
  | [] => []
  | h :: _ => ((splitOnSp h).drop 1).filter fun f => !f.isEmpty

/-- Modelled from the spec: fueled glob matching of one host pattern against a
name — a star matches any run of characters, other characters match
themselves (§9: "host patterns can contain glob characters").  Stands in for
the pattern matching behind `ssh_config.Host.Matches`. -/
def patMatchCore : Nat → List Char → List Char → Bool
  | 0, _, _ => false
  | fuel + 1, ps, s =>
    match ps, s with
    | [], [] => true
    | [], _ :: _ => false
    | '*' :: ps', rest =>
      patMatchCore fuel ps' rest ||
        (match rest with
         | [] => false
         | _ :: s' => patMatchCore fuel ('*' :: ps') s')
    | _ :: _, [] => false
    | c :: ps', d :: s' => c = d && patMatchCore fuel ps' s'

/-- Glob matching with sufficient fuel (each step shrinks pattern or input). -/
def patMatch (p s : List Char) : Bool := patMatchCore (p.length + s.length + 1) p s

/-- Modelled from the spec: `ssh_config.Host.Matches` — the name matches some
pattern of the host's header. -/
def HostMatches (hoststring : ConfigText) (name : Line) : Bool :=
  (hostPatterns hoststring).any fun p => patMatch p name

/-- Translation of the legacy `PruneInactiveWorkspaces` (unnamed source file):
a brev host is retained iff some active workspace name matches one of its
host patterns (`host.Matches(name)`), instead of exact alias equality. -/
def PruneInactiveWorkspacesLegacy (privateKeyPath : Line) (active : List Line) (d : ConfigDoc) :
    ConfigDoc :=
  parse (d.preamble ++
    (d.hosts.map fun b =>
      if checkIfBrevHost b privateKeyPath then
        if active.any (fun name => HostMatches b name) then b else []
      else b).flatten)

/-- Reading a Go map that may be nil: a nil map yields no entries. -/
def goMemb (m : Option (List Line)) (k : Line) : Bool :=
  match m with
  | none => false
  | some l => l.contains k

/-- Translation of `SSHConfig.GetBrevPorts` (ssh.go): the port set is declared
with `var portSet BrevPorts` (a nil map) and every iteration assigns into it;
assigning into a nil map faults, modelled as `Except.error ()`. -/
def SSHConfigGetBrevPorts (d : ConfigDoc) (privateKeyPath : Line) :
    Except Unit (Option (List Line)) :=
  (GetBrevHostValues d privateKeyPath).foldlM
    (fun m name =>
      match m with
      | none => Except.error ()
      | some l => Except.ok (some (((docGet d name portKey).getD []) :: l)))
    none

/-- Translation of `SSHConfig.GetBrevHostValueSet` (ssh.go): the set is
declared with `var brevHostValuesSet BrevHostValuesSet` (a nil map) and every
iteration assigns into it; assigning into a nil map faults. -/
def SSHConfigGetBrevHostValueSet (d : ConfigDoc) (privateKeyPath : Line) :
    Except Unit (Option (List Line)) :=
  (GetBrevHostValues d privateKeyPath).foldlM
    (fun m v =>
      match m with
      | none => Except.error ()
      | some l => Except.ok (some (v :: l)))
    none

/-- The probing loop of `SSHConfigurer.GetIdentityPortMap` over the (possibly
nil) ports map; reading a nil map is fine and yields no claimed ports. -/
def probeOpt (m : Option (List Line)) (p : Nat) : Nat :=
  match m with
  | none => p
  | some l => probe (l.length + 1) l p

/-- The creation loop of `SSHConfigurer.GetIdentityPortMap` (ssh.go): for each
active identifier not in the host-value set, probe for a port, then assign
into `identifierPortMapping` (declared `var ... IdentityPortMap`, hence nil —
the assignment faults) and into the ports map (also faulting when nil). -/
def identityLoop :
    List Line → Option (List Line) → Option (List Line) → Option (List (Line × Line)) → Nat →
    Except Unit (Option (List (Line × Line)))
  | [], _, _, mapping, _ => Except.ok mapping
  | w :: ws, hostSet, ports, mapping, p =>
    if goMemb hostSet w then identityLoop ws hostSet ports mapping p
    else
      let q := probeOpt ports p
      match mapping with
      | none => Except.error ()
      | some mlist =>
        match ports with
        | none => Except.error ()
        | some plist =>
          identityLoop ws hostSet (some (natChars q :: plist))
            (some ((w, natChars q) :: mlist)) q

/-- Translation of `SSHConfigurer.GetIdentityPortMap` (ssh.go), with
`SSHConfig` as the `Reader` implementation: build the host-value set and the
port set (both faulting operations), then run the creation loop with the
never-initialized `identifierPortMapping`. -/
def GetIdentityPortMap (d : ConfigDoc) (privateKeyPath : Line) (active : List Line) :
    Except Unit (Option (List (Line × Line))) := do
  let hostSet ← SSHConfigGetBrevHostValueSet d privateKeyPath
  let ports ← SSHConfigGetBrevPorts d privateKeyPath
  identityLoop active hostSet ports none 2222

/-- The collaborator-visible state: the persisted configuration file, the
backup, and the private-key file. -/
structure StoreState where
  configFile : ConfigText
  backup : Option ConfigText
  keyFile : Option Line
deriving DecidableEq

/-- Which collaborator calls fail during one invocation. -/
structure FaultSpec where
  keyWriteFails : Bool
  backupFails : Bool
  readFails : Bool
  writeFails : Bool
deriving DecidableEq

/-- Translation of `DefaultSSHConfigurer.Config` (legacy unnamed source file,
whose staged body carries the load inline): write the private key, back up the
configuration, load and parse it, create entries, prune, and only then write
the result back.  Each failing stage aborts all later stages (the Go early
returns); the returned flag records success. -/
def Config (f : FaultSpec) (pem privateKeyPath : Line) (active : List Line)
    (st : StoreState) : StoreState × Bool :=
  if f.keyWriteFails then (st, false)
  else
    let st1 : StoreState := { st with keyFile := some pem }
    if f.backupFails then (st1, false)
    else
      let st2 : StoreState := { st1 with backup := some st1.configFile }
      if f.readFails then (st2, false)
      else if f.writeFails then (st2, false)
      else ({ st2 with configFile := serialize (reconcile privateKeyPath active st2.configFile) },
        true)

/-- A text with no host-header lines (preamble shape). -/
def noHeaders (t : ConfigText) : Bool := t.all fun l => !isHostHeader l

/-- A well-formed host block: a header line followed by non-header lines. -/
def WFBlock : ConfigText → Bool
  | [] => false
  | h :: t => isHostHeader h && noHeaders t

/-- A well-formed document: every parse result has this shape. -/
def WFDoc (d : ConfigDoc) : Bool :=
  noHeaders d.preamble && d.hosts.all WFBlock

/-- Scenario B starting text: managed entries a→2222 and b→2223. -/
def scenarioBText : ConfigText :=
  [ "Host a".toList, "  Hostname 0.0.0.0".toList, "  IdentityFile /pk".toList
  , "  User brev".toList, "  Port 2222".toList, []
  , "Host b".toList, "  Hostname 0.0.0.0".toList, "  IdentityFile /pk".toList
  , "  User brev".toList, "  Port 2223".toList, [] ]

/-- Two managed blocks sharing the alias a: the second block's port 2223 is
invisible to the first-match port lookup. -/
def dupAliasText : ConfigText :=
  [ "Host a".toList, "  IdentityFile /pk".toList, "  Port 2222".toList, []
  , "Host a".toList, "  IdentityFile /pk".toList, "  Port 2223".toList, [] ]

/-- Two managed blocks with distinct aliases already carrying the same port. -/
def samePortText : ConfigText :=
  [ "Host a".toList, "  IdentityFile /pk".toList, "  Port 2229".toList, []
  , "Host b".toList, "  IdentityFile /pk".toList, "  Port 2229".toList, [] ]

/-- A foreign (non-managed) host block for alias a carrying a Port directive. -/
def foreignAText : ConfigText :=
  [ "Host a".toList, "  Port 7777".toList ]

/-- A managed host block whose header carries two patterns. -/
def multiPatternText : ConfigText :=
  [ "Host x y".toList, "  IdentityFile /pk".toList ]

/-! ### Parser and serializer lemmas -/

theorem splitOnSp_ne_nil (l : Line) : splitOnSp l ≠ [] := by
  induction l with
  | nil => simp [splitOnSp]
  | cons c cs ih =>
    rw [splitOnSp]
    split
    · simp
    · cases h : splitOnSp cs <;> simp

theorem parse_nil : parse [] = ⟨[], []⟩ := rfl

theorem parse_cons_header (l : Line) (rest : ConfigText) (h : isHostHeader l = true) :
    parse (l :: rest) = ⟨[], (l :: (parse rest).preamble) :: (parse rest).hosts⟩ := by
  simp [parse, h]

theorem parse_cons_plain (l : Line) (rest : ConfigText) (h : isHostHeader l = false) :
    parse (l :: rest) = ⟨l :: (parse rest).preamble, (parse rest).hosts⟩ := by
  simp [parse, h]

theorem parse_wf (t : ConfigText) : WFDoc (parse t) = true := by
  induction t with
  | nil => decide
  | cons l rest ih =>
    rw [WFDoc] at ih ⊢
    simp only [Bool.and_eq_true] at ih
    by_cases h : isHostHeader l = true
    · rw [parse_cons_header l rest h]
      simp only [noHeaders, WFBlock, Bool.and_eq_true, List.all_nil, List.all_cons, true_and]
      refine ⟨⟨h, ih.1⟩, ?_⟩
      simpa using ih.2
    · rw [parse_cons_plain l rest (by simpa using h)]
      simp only [noHeaders, List.all_cons, Bool.and_eq_true] at ih ⊢
      exact ⟨⟨by simpa using h, ih.1⟩, ih.2⟩

theorem parse_append_pre (p r : ConfigText) (hp : noHeaders p = true) :
    parse (p ++ r) = ⟨p ++ (parse r).preamble, (parse r).hosts⟩ := by
  induction p with
  | nil => simp
  | cons l p' ih =>
    rw [noHeaders, List.all_cons, Bool.and_eq_true] at hp
    have hl : isHostHeader l = false := by simpa using hp.1
    rw [List.cons_append, parse_cons_plain l (p' ++ r) hl, ih hp.2]
    simp

theorem parse_flatten (bs : List ConfigText) (hbs : ∀ b ∈ bs, WFBlock b = true) :
    parse bs.flatten = ⟨[], bs⟩ := by
  induction bs with
  | nil => rfl
  | cons b bs' ih =>
    have hb := hbs b (by simp)
    match b, hb with
    | h :: t, hb =>
      rw [WFBlock, Bool.and_eq_true] at hb
      have ih' := ih (fun x hx => hbs x (by simp [hx]))
      rw [List.flatten_cons, List.cons_append,
        parse_cons_header h (t ++ bs'.flatten) hb.1,
        parse_append_pre t bs'.flatten hb.2, ih']
      simp

theorem parse_serialize (d : ConfigDoc) (hd : WFDoc d = true) : parse (serialize d) = d := by
  rw [WFDoc, Bool.and_eq_true, List.all_eq_true] at hd
  rw [serialize, parse_append_pre d.preamble d.hosts.flatten hd.1,
    parse_flatten d.hosts (by simpa using hd.2)]
  simp

/-! ### Decimal rendering: correctness and injectivity -/

theorem digitVal_digitChar (r : Nat) (h : r < 10) : digitVal (digitChar r) = r := by
  interval_cases r <;> decide

theorem charsVal_append_digit (xs : List Char) (c : Char) :
    charsVal (xs ++ [c]) = charsVal xs * 10 + digitVal c := by
  simp [charsVal, List.foldl_append]

theorem charsVal_natCharsCore (fuel n : Nat) (h : n < fuel) :
    charsVal (natCharsCore fuel n) = n := by
  induction fuel generalizing n with
  | zero => omega
  | succ fuel ih =>
    rw [natCharsCore]
    by_cases h10 : n < 10
    · simp only [if_pos h10]
      have : charsVal [digitChar n] = digitVal (digitChar n) := by simp [charsVal]
      rw [this, digitVal_digitChar n h10]
    · simp only [if_neg h10]
      have hdiv : n / 10 < fuel := by
        have := Nat.div_lt_self (by omega : 0 < n) (by omega : 1 < 10)
        omega
      rw [charsVal_append_digit, ih (n / 10) hdiv, digitVal_digitChar (n % 10) (Nat.mod_lt n (by omega))]
      omega

theorem charsVal_natChars (n : Nat) : charsVal (natChars n) = n :=
  charsVal_natCharsCore (n + 1) n (by omega)

theorem natChars_inj {m n : Nat} (h : natChars m = natChars n) : m = n := by
  have := charsVal_natChars m
  rw [h, charsVal_natChars n] at this
  omega

/-! ### Probe: the port loop finds the least unclaimed port -/

theorem probe_spec (fuel : Nat) (ports : List Line) (p : Nat)
    (h : ∃ i, i < fuel ∧ ports.contains (natChars (p + i)) = false) :
    ports.contains (natChars (probe fuel ports p)) = false ∧
      p ≤ probe fuel ports p ∧
      ∀ r, p ≤ r → r < probe fuel ports p → ports.contains (natChars r) = true := by
  induction fuel generalizing p with
  | zero => obtain ⟨i, hi, _⟩ := h; omega
  | succ fuel ih =>
    by_cases hc : ports.contains (natChars p) = true
    · have hstep : probe (fuel + 1) ports p = probe fuel ports (p + 1) := by
        rw [probe, if_pos hc]
      obtain ⟨i, hi, hfree⟩ := h
      have hi0 : i ≠ 0 := by
        intro h0
        subst h0
        simp only [Nat.add_zero] at hfree
        rw [hc] at hfree
        exact Bool.noConfusion hfree
      obtain ⟨j, rfl⟩ : ∃ j, i = j + 1 := ⟨i - 1, by omega⟩
      have ih' := ih (p + 1) ⟨j, by omega, by rw [show p + 1 + j = p + (j + 1) by omega]; exact hfree⟩
      rw [hstep]
      refine ⟨ih'.1, by omega, fun r hr1 hr2 => ?_⟩
      by_cases hrp : r = p
      · rw [hrp]; exact hc
      · exact ih'.2.2 r (by omega) hr2
    · have hc' : ports.contains (natChars p) = false := by simpa using hc
      have hstep : probe (fuel + 1) ports p = p := by rw [probe, hc']; simp
      rw [hstep]
      exact ⟨hc', Nat.le_refl p, fun r hr1 hr2 => by omega⟩

theorem exists_unclaimed (ports : List Line) (p : Nat) :
    ∃ i, i ≤ ports.length ∧ ports.contains (natChars (p + i)) = false := by
  by_contra hcon
  push_neg at hcon
  have hall : ∀ i, i ≤ ports.length → natChars (p + i) ∈ ports := by
    intro i hi
    have := hcon i hi
    have : ports.contains (natChars (p + i)) = true := by
      cases hc : ports.contains (natChars (p + i))
      · exact absurd hc this
      · rfl
    simpa using this
  have himage : ((Finset.range (ports.length + 1)).image fun i => natChars (p + i)) ⊆
      ports.toFinset := by
    intro x hx
    obtain ⟨i, hi, rfl⟩ := Finset.mem_image.mp hx
    exact List.mem_toFinset.mpr (hall i (by simpa using Nat.lt_succ_iff.mp (Finset.mem_range.mp hi)))
  have hcard : ((Finset.range (ports.length + 1)).image fun i => natChars (p + i)).card
      = ports.length + 1 := by
    rw [Finset.card_image_of_injOn
      (fun a _ b _ hab => by have := natChars_inj hab; omega)]
    simp
  have hle := Finset.card_le_card himage
  rw [hcard] at hle
  have := ports.toFinset_card_le
  omega

theorem probe_found (ports : List Line) (p : Nat) :
    ports.contains (natChars (probe (ports.length + 1) ports p)) = false ∧
      p ≤ probe (ports.length + 1) ports p ∧
      ∀ r, p ≤ r → r < probe (ports.length + 1) ports p →
        ports.contains (natChars r) = true := by
  obtain ⟨i, hi, hfree⟩ := exists_unclaimed ports p
  exact probe_spec (ports.length + 1) ports p ⟨i, by omega, hfree⟩

/-! ### Facts about a freshly rendered entry -/

theorem lineKV_host (w : Line) : lineKV ("Host ".toList ++ w) = some ("Host".toList, w) := rfl

theorem lineKV_identity (pk : Line) :
    lineKV ("  IdentityFile ".toList ++ pk) = some ("IdentityFile".toList, pk) := rfl

theorem lineKV_port (q : Line) : lineKV ("  Port ".toList ++ q) = some ("Port".toList, q) := rfl

theorem splitOnSp_host (w : Line) : splitOnSp ("Host ".toList ++ w) = "Host".toList :: splitOnSp w := rfl

theorem isHostHeader_host (w : Line) : isHostHeader ("Host ".toList ++ w) = true := rfl

theorem WFBlock_MakeSSHEntry (w q pk : Line) : WFBlock (MakeSSHEntry w q pk) = true := rfl

theorem findKV_port_MakeSSHEntry (w q pk : Line) :
    findKV portKey (MakeSSHEntry w q pk) = some q := rfl

theorem findKV_identity_MakeSSHEntry (w q pk : Line) :
    findKV identityFileKey (MakeSSHEntry w q pk) = some pk := rfl

theorem checkIfBrevHost_MakeSSHEntry (w q pk : Line) :
    checkIfBrevHost (MakeSSHEntry w q pk) pk = true := by
  rw [checkIfBrevHost, List.any_eq_true]
  refine ⟨"  IdentityFile ".toList ++ pk, by simp [MakeSSHEntry], ?_⟩
  rw [lineKV_identity]
  simp [identityFileKey]

theorem hostnameFromString_MakeSSHEntry (w q pk : Line) :
    hostnameFromString (MakeSSHEntry w q pk) = (splitOnSp w).headI := by
  obtain ⟨a, as, heq⟩ : ∃ a as, splitOnSp w = a :: as := by
    cases hsw : splitOnSp w with
    | nil => exact absurd hsw (splitOnSp_ne_nil w)
    | cons a as => exact ⟨a, as, rfl⟩
  show hostnameFromString (("Host ".toList ++ w) :: _) = (splitOnSp w).headI
  rw [hostnameFromString, splitOnSp_host, heq]
  simp

theorem splitOnSp_no_space (w : Line) (h : (' ' ∈ w) → False) : splitOnSp w = [w] := by
  induction w with
  | nil => rfl
  | cons c cs ih =>
    rw [splitOnSp]
    have hc : ¬ c = ' ' := fun hcc => h (by simp [hcc])
    rw [if_neg hc, ih (fun hm => h (by simp [hm]))]

/-! ### Characterizing prune and create as document transformations -/

theorem createConfigEntry_eq (b : ConfigText) (x y : Bool) :
    createConfigEntry b x y = if (!x || y) = true then b else [] := by
  cases x <;> cases y <;> rfl

theorem flatten_map_if (l : List ConfigText) (p : ConfigText → Bool) :
    (l.map fun b => if p b = true then b else []).flatten = (l.filter p).flatten := by
  induction l with
  | nil => rfl
  | cons b l' ih =>
    by_cases hb : p b = true
    · simp [hb, ih]
    · simp only [List.map_cons, List.flatten_cons, if_neg hb, List.nil_append, ih,
        List.filter_cons]

theorem prune_eq (pk : Line) (active : List Line) (d : ConfigDoc) (hd : WFDoc d = true) :
    PruneInactiveWorkspaces pk active d
      = ⟨d.preamble,
          d.hosts.filter fun b => !checkIfBrevHost b pk || checkIfHostIsActive b active⟩ := by
  rw [WFDoc, Bool.and_eq_true, List.all_eq_true] at hd
  rw [PruneInactiveWorkspaces]
  have hmap : (d.hosts.map fun b =>
      createConfigEntry b (checkIfBrevHost b pk) (checkIfHostIsActive b active))
      = d.hosts.map fun b =>
          if (!checkIfBrevHost b pk || checkIfHostIsActive b active) = true then b else [] := by
    apply List.map_congr_left
    intro b _
    exact createConfigEntry_eq b _ _
  rw [hmap, flatten_map_if,
    parse_append_pre _ _ hd.1,
    parse_flatten _ (fun b hb => by
      have := hd.2 b (List.mem_of_mem_filter hb)
      simpa using this)]
  simp

theorem CreateEntriesLoop_mem_blocks (pk : Line) (vals : List Line) :
    ∀ (ws ports : List Line) (p : Nat) (b : ConfigText),
      b ∈ (CreateEntriesLoop pk vals ws ports p).1 →
      ∃ w q, w ∈ ws ∧ vals.contains w = false ∧ b = MakeSSHEntry w (natChars q) pk := by
  intro ws
  induction ws with
  | nil => intro ports p b hb; simp [CreateEntriesLoop] at hb
  | cons w ws' ih =>
    intro ports p b hb
    rw [CreateEntriesLoop] at hb
    by_cases hw : vals.contains w = true
    · rw [if_pos hw] at hb
      obtain ⟨w', q, hw', hv, hbe⟩ := ih ports p b hb
      exact ⟨w', q, by simp [hw'], hv, hbe⟩
    · rw [if_neg hw] at hb
      simp only [List.mem_cons] at hb
      rcases hb with hb | hb
      · exact ⟨w, probe (ports.length + 1) ports p, by simp, by simpa using hw, hb⟩
      · obtain ⟨w', q, hw', hv, hbe⟩ := ih _ _ b hb
        exact ⟨w', q, by simp [hw'], hv, hbe⟩

theorem CreateEntriesLoop_exists_block (pk : Line) (vals : List Line) :
    ∀ (ws ports : List Line) (p : Nat) (w : Line),
      w ∈ ws → vals.contains w = false →
      ∃ q, MakeSSHEntry w (natChars q) pk ∈ (CreateEntriesLoop pk vals ws ports p).1 := by
  intro ws
  induction ws with
  | nil => intro ports p w hw; simp at hw
  | cons w' ws' ih =>
    intro ports p w hw hv
    rw [CreateEntriesLoop]
    rcases List.mem_cons.mp hw with rfl | hw'
    · rw [if_neg (fun hc => by rw [hv] at hc; exact Bool.noConfusion hc)]
      exact ⟨probe (ports.length + 1) ports p, by simp⟩
    · by_cases hcw : vals.contains w' = true
      · rw [if_pos hcw]
        exact ih ports p w hw' hv
      · rw [if_neg hcw]
        obtain ⟨q, hq⟩ := ih (natChars (probe (ports.length + 1) ports p) :: ports)
          (probe (ports.length + 1) ports p) w hw' hv
        exact ⟨q, by simp [hq]⟩

theorem CreateEntriesLoop_blocks_wf (pk : Line) (vals ws ports : List Line) (p : Nat) :
    ∀ b ∈ (CreateEntriesLoop pk vals ws ports p).1, WFBlock b = true := by
  intro b hb
  obtain ⟨w, q, _, _, rfl⟩ := CreateEntriesLoop_mem_blocks pk vals ws ports p b hb
  exact WFBlock_MakeSSHEntry w (natChars q) pk

theorem create_eq (pk : Line) (active : List Line) (d : ConfigDoc) (hd : WFDoc d = true) :
    CreateBrevSSHConfigEntries pk active d
      = ⟨d.preamble,
          d.hosts ++ (CreateEntriesLoop pk (GetBrevHostValues d pk) active
            (GetBrevPorts d (GetBrevHostValues d pk)) 2222).1⟩ := by
  have hwf := hd
  rw [WFDoc, Bool.and_eq_true, List.all_eq_true] at hwf
  rw [CreateBrevSSHConfigEntries]
  show parse (serialize d ++ _) = _
  rw [serialize, List.append_assoc, ← List.flatten_append,
    parse_append_pre _ _ hwf.1,
    parse_flatten _ (fun b hb => by
      rcases List.mem_append.mp hb with hb | hb
      · simpa using hwf.2 b hb
      · exact CreateEntriesLoop_blocks_wf pk _ active _ 2222 b hb)]
  simp

theorem WFDoc_parts (pre : ConfigText) (hosts : List ConfigText)
    (h1 : noHeaders pre = true) (h2 : ∀ b ∈ hosts, WFBlock b = true) :
    WFDoc ⟨pre, hosts⟩ = true := by
  rw [WFDoc, Bool.and_eq_true, List.all_eq_true]
  exact ⟨h1, fun b hb => h2 b hb⟩

theorem WFDoc_create (pk : Line) (active : List Line) (d : ConfigDoc) (hd : WFDoc d = true) :
    WFDoc (CreateBrevSSHConfigEntries pk active d) = true := by
  rw [create_eq pk active d hd]
  have hwf := hd
  rw [WFDoc, Bool.and_eq_true, List.all_eq_true] at hwf
  refine WFDoc_parts _ _ hwf.1 (fun b hb => ?_)
  rcases List.mem_append.mp hb with hb | hb
  · simpa using hwf.2 b hb
  · exact CreateEntriesLoop_blocks_wf pk _ active _ 2222 b hb

theorem reconcile_eq (pk : Line) (active : List Line) (t : ConfigText) :
    reconcile pk active t
      = ⟨(parse t).preamble,
          ((parse t).hosts ++ (CreateEntriesLoop pk (GetBrevHostValues (parse t) pk) active
              (GetBrevPorts (parse t) (GetBrevHostValues (parse t) pk)) 2222).1).filter
            fun b => !checkIfBrevHost b pk || checkIfHostIsActive b active⟩ := by
  rw [reconcile, prune_eq pk active _ (WFDoc_create pk active (parse t) (parse_wf t)),
    create_eq pk active (parse t) (parse_wf t)]

theorem WFDoc_reconcile (pk : Line) (active : List Line) (t : ConfigText) :
    WFDoc (reconcile pk active t) = true := by
  rw [reconcile_eq]
  have hwf := WFDoc_create pk active (parse t) (parse_wf t)
  rw [create_eq pk active (parse t) (parse_wf t)] at hwf
  rw [WFDoc, Bool.and_eq_true, List.all_eq_true] at hwf
  exact WFDoc_parts _ _ hwf.1 (fun b hb => hwf.2 b (List.mem_of_mem_filter hb))

/-! ### Fresh ports: allocated ports avoid the seeded usage set and each other -/

theorem CreateEntriesLoop_avoids (pk : Line) (vals : List Line) :
    ∀ (ws ports : List Line) (p : Nat) (w q : Line),
      (w, q) ∈ (CreateEntriesLoop pk vals ws ports p).2 → ports.contains q = false := by
  intro ws
  induction ws with
  | nil => intro ports p w q hm; simp [CreateEntriesLoop] at hm
  | cons w' ws' ih =>
    intro ports p w q hm
    rw [CreateEntriesLoop] at hm
    by_cases hw : vals.contains w' = true
    · rw [if_pos hw] at hm
      exact ih ports p w q hm
    · rw [if_neg hw] at hm
      simp only [List.mem_cons] at hm
      rcases hm with hm | hm
      · have hfree := (probe_found ports p).1
        have hq : q = natChars (probe (ports.length + 1) ports p) := congrArg Prod.snd hm
        rw [hq]
        exact hfree
      · have := ih _ _ w q hm
        simp only [List.contains_cons, Bool.or_eq_false_iff] at this
        exact this.2

theorem CreateEntriesLoop_snd_nodup (pk : Line) (vals : List Line) :
    ∀ (ws ports : List Line) (p : Nat),
      ((CreateEntriesLoop pk vals ws ports p).2.map Prod.snd).Nodup := by
  intro ws
  induction ws with
  | nil => intro ports p; simp [CreateEntriesLoop]
  | cons w' ws' ih =>
    intro ports p
    rw [CreateEntriesLoop]
    by_cases hw : vals.contains w' = true
    · rw [if_pos hw]; exact ih ports p
    · rw [if_neg hw]
      simp only [List.map_cons, List.nodup_cons]
      refine ⟨?_, ih _ _⟩
      intro hmem
      obtain ⟨⟨w'', q''⟩, hpair, hq⟩ := List.mem_map.mp hmem
      have := CreateEntriesLoop_avoids pk vals ws' _ _ w'' q'' hpair
      simp only [List.contains_cons, Bool.or_eq_false_iff] at this
      have hne : q'' ≠ natChars (probe (ports.length + 1) ports p) := by
        simpa using this.1
      exact hne hq

/-! ### Lookup characterizations -/

theorem findSome?_eq_none_iff {α β : Type} (l : List α) (f : α → Option β) :
    l.findSome? f = none ↔ ∀ x ∈ l, f x = none := by
  induction l with
  | nil => simp
  | cons a t ih =>
    simp only [List.findSome?_cons]
    cases h : f a <;> simp [h, ih]

theorem GetBrevHostValues_contains (d : ConfigDoc) (pk w : Line) :
    (GetBrevHostValues d pk).contains w = true ↔
      ∃ b ∈ d.hosts, checkIfBrevHost b pk = true ∧ hostnameFromString b = w := by
  have hmem : (GetBrevHostValues d pk).contains w = true ↔ w ∈ GetBrevHostValues d pk := by
    simp
  rw [hmem, GetBrevHostValues, List.mem_map]
  constructor
  · rintro ⟨b, hb, hbw⟩
    have := List.mem_filter.mp hb
    exact ⟨b, this.1, this.2, hbw⟩
  · rintro ⟨b, hb, hbrev, hbw⟩
    exact ⟨b, List.mem_filter.mpr ⟨hb, hbrev⟩, hbw⟩

theorem sync_eq (pk : Line) (active : List Line) (d : ConfigDoc) (hd : WFDoc d = true) :
    PruneInactiveWorkspaces pk active (CreateBrevSSHConfigEntries pk active d)
      = ⟨d.preamble,
          (d.hosts ++ (CreateEntriesLoop pk (GetBrevHostValues d pk) active
              (GetBrevPorts d (GetBrevHostValues d pk)) 2222).1).filter
            fun b => !checkIfBrevHost b pk || checkIfHostIsActive b active⟩ := by
  rw [prune_eq pk active _ (WFDoc_create pk active d hd), create_eq pk active d hd]

theorem WFDoc_sync (pk : Line) (active : List Line) (d : ConfigDoc) (hd : WFDoc d = true) :
    WFDoc (PruneInactiveWorkspaces pk active (CreateBrevSSHConfigEntries pk active d)) = true := by
  rw [sync_eq pk active d hd]
  have hwf := hd
  rw [WFDoc, Bool.and_eq_true, List.all_eq_true] at hwf
  refine WFDoc_parts _ _ hwf.1 (fun b hb => ?_)
  have hb' := List.mem_of_mem_filter hb
  rcases List.mem_append.mp hb' with hb' | hb'
  · simpa using hwf.2 b hb'
  · exact CreateEntriesLoop_blocks_wf pk _ active _ 2222 b hb'

/-! ### Stability of the per-alias port lookup under a second pass -/

theorem second_sync_lookup (pk : Line) (active : List Line) (d0 : ConfigDoc)
    (hd0 : WFDoc d0 = true) (w : Line) (hw : w ∈ active) :
    docGet (PruneInactiveWorkspaces pk active (CreateBrevSSHConfigEntries pk active
        (PruneInactiveWorkspaces pk active (CreateBrevSSHConfigEntries pk active d0)))) w portKey
      = docGet (PruneInactiveWorkspaces pk active (CreateBrevSSHConfigEntries pk active d0))
          w portKey := by
  have h1 := sync_eq pk active d0 hd0
  have hwf1 : WFDoc (PruneInactiveWorkspaces pk active
      (CreateBrevSSHConfigEntries pk active d0)) = true := WFDoc_sync pk active d0 hd0
  rw [h1] at hwf1
  rw [h1, sync_eq pk active _ hwf1]
  set K : ConfigText → Bool :=
    fun b => !checkIfBrevHost b pk || checkIfHostIsActive b active with hK
  set N1 : List ConfigText := (CreateEntriesLoop pk (GetBrevHostValues d0 pk) active
    (GetBrevPorts d0 (GetBrevHostValues d0 pk)) 2222).1 with hN1
  set hosts1 : List ConfigText := (d0.hosts ++ N1).filter K with hhosts1
  set vals1 : List Line :=
    GetBrevHostValues ⟨d0.preamble, hosts1⟩ pk with hvals1
  set N2 : List ConfigText := (CreateEntriesLoop pk vals1 active
    (GetBrevPorts ⟨d0.preamble, hosts1⟩ vals1) 2222).1 with hN2
  have hfilter : ((⟨d0.preamble, hosts1⟩ : ConfigDoc).hosts ++ N2).filter K
      = hosts1 ++ N2.filter K := by
    show (hosts1 ++ N2).filter K = hosts1 ++ N2.filter K
    rw [List.filter_append]
    congr 1
    rw [hhosts1, List.filter_filter]
    simp
  show docGet ⟨d0.preamble, ((⟨d0.preamble, hosts1⟩ : ConfigDoc).hosts ++ N2).filter K⟩ w portKey
      = docGet ⟨d0.preamble, hosts1⟩ w portKey
  rw [hfilter]
  show (hosts1 ++ N2.filter K).findSome?
      (fun b => if hostnameFromString b = w then findKV portKey b else none)
    = hosts1.findSome? (fun b => if hostnameFromString b = w then findKV portKey b else none)
  rw [List.findSome?_append]
  cases hcase : hosts1.findSome?
      (fun b => if hostnameFromString b = w then findKV portKey b else none) with
  | some v => simp
  | none =>
    simp only [Option.none_or]
    rw [findSome?_eq_none_iff]
    intro b hb
    have hbN2 : b ∈ N2 := List.mem_of_mem_filter hb
    obtain ⟨w', q, hw', hv1, rfl⟩ :=
      CreateEntriesLoop_mem_blocks pk vals1 active _ 2222 b hbN2
    by_cases ha : hostnameFromString (MakeSSHEntry w' (natChars q) pk) = w
    · exfalso
      have hnone := (findSome?_eq_none_iff _ _).mp hcase
      by_cases hvals0 : (GetBrevHostValues d0 pk).contains w' = true
      · obtain ⟨M, hM, hMbrev, hMw⟩ := (GetBrevHostValues_contains d0 pk w').mp hvals0
        have hKM : K M = true := by
          rw [hK]
          simp only [Bool.or_eq_true]
          right
          rw [checkIfHostIsActive, hMw]
          simpa using hw'
        have hM1 : M ∈ hosts1 :=
          List.mem_filter.mpr ⟨List.mem_append.mpr (Or.inl hM), hKM⟩
        have hc1 : vals1.contains w' = true :=
          (GetBrevHostValues_contains ⟨d0.preamble, hosts1⟩ pk w').mpr ⟨M, hM1, hMbrev, hMw⟩
        rw [hc1] at hv1
        exact Bool.noConfusion hv1
      · rw [Bool.not_eq_true] at hvals0
        obtain ⟨q1, hq1⟩ := CreateEntriesLoop_exists_block pk (GetBrevHostValues d0 pk)
          active (GetBrevPorts d0 (GetBrevHostValues d0 pk)) 2222 w' hw' hvals0
        have haw : (splitOnSp w').headI = w := by
          rw [hostnameFromString_MakeSSHEntry] at ha
          exact ha
        have hKB1 : K (MakeSSHEntry w' (natChars q1) pk) = true := by
          rw [hK]
          simp only [Bool.or_eq_true]
          right
          rw [checkIfHostIsActive, hostnameFromString_MakeSSHEntry, haw]
          simpa using hw
        have hB1 : MakeSSHEntry w' (natChars q1) pk ∈ hosts1 :=
          List.mem_filter.mpr ⟨List.mem_append.mpr (Or.inr hq1), hKB1⟩
        have hfB1 := hnone _ hB1
        rw [if_pos (by rw [hostnameFromString_MakeSSHEntry]; exact haw),
          findKV_port_MakeSSHEntry] at hfB1
        exact Option.noConfusion hfB1
    · rw [if_neg ha]

/-! ### Nil-map faulting helpers -/

theorem foldlM_none_error {α : Type} (g : Option (List Line) → α → Except Unit (Option (List Line)))
    (hg : ∀ a, g none a = Except.error ()) :
    ∀ l : List α, l ≠ [] → l.foldlM g none = Except.error () := by
  intro l hl
  cases l with
  | nil => exact absurd rfl hl
  | cons a t =>
    rw [List.foldlM_cons, hg a]
    rfl

theorem SSHConfigGetBrevPorts_error (d : ConfigDoc) (pk : Line)
    (h : GetBrevHostValues d pk ≠ []) :
    SSHConfigGetBrevPorts d pk = Except.error () := by
  rw [SSHConfigGetBrevPorts]
  exact foldlM_none_error _ (fun a => rfl) _ h

theorem SSHConfigGetBrevHostValueSet_error (d : ConfigDoc) (pk : Line)
    (h : GetBrevHostValues d pk ≠ []) :
    SSHConfigGetBrevHostValueSet d pk = Except.error () := by
  rw [SSHConfigGetBrevHostValueSet]
  exact foldlM_none_error _ (fun a => rfl) _ h

theorem identityLoop_error_nilmap :
    ∀ (ws : List Line) (hostSet ports : Option (List Line)) (p : Nat),
      (∃ w ∈ ws, goMemb hostSet w = false) →
      identityLoop ws hostSet ports none p = Except.error () := by
  intro ws
  induction ws with
  | nil => intro hostSet ports p h; obtain ⟨w, hw, _⟩ := h; simp at hw
  | cons w' ws' ih =>
    intro hostSet ports p h
    rw [identityLoop]
    by_cases hm : goMemb hostSet w' = true
    · rw [if_pos hm]
      obtain ⟨w, hw, hwf⟩ := h
      rcases List.mem_cons.mp hw with rfl | hw'
      · rw [hm] at hwf; exact Bool.noConfusion hwf
      · exact ih hostSet ports p ⟨w, hw', hwf⟩
    · rw [if_neg hm]

theorem identityLoop_ok_all :
    ∀ (ws : List Line) (hostSet ports : Option (List Line)) (p : Nat)
      (m : Option (List (Line × Line))),
      identityLoop ws hostSet ports none p = Except.ok m →
      ∀ w ∈ ws, goMemb hostSet w = true := by
  intro ws
  induction ws with
  | nil => intro hostSet ports p m _ w hw; simp at hw
  | cons w' ws' ih =>
    intro hostSet ports p m hok w hw
    rw [identityLoop] at hok
    by_cases hm : goMemb hostSet w' = true
    · rw [if_pos hm] at hok
      rcases List.mem_cons.mp hw with rfl | hw'
      · exact hm
      · exact ih hostSet ports p m hok w hw'
    · rw [if_neg hm] at hok
      exact Except.noConfusion hok

/-! ### Remaining lookup and faulting composites -/

theorem findSome?_eq_some_first {α β : Type} (l : List α) (f : α → Option β) (v : β)
    (h : l.findSome? f = some v) :
    ∃ l₁ x l₂, l = l₁ ++ x :: l₂ ∧ f x = some v ∧ ∀ y ∈ l₁, f y = none := by
  induction l with
  | nil => simp at h
  | cons a t ih =>
    cases hfa : f a with
    | some u =>
      rw [List.findSome?_cons, hfa] at h
      refine ⟨[], a, t, rfl, ?_, by simp⟩
      rw [hfa]
      exact h
    | none =>
      rw [List.findSome?_cons, hfa] at h
      obtain ⟨l₁, x, l₂, hsplit, hfx, hpre⟩ := ih h
      refine ⟨a :: l₁, x, l₂, by rw [hsplit, List.cons_append], hfx, ?_⟩
      intro y hy
      rcases List.mem_cons.mp hy with rfl | hy'
      · exact hfa
      · exact hpre y hy'

theorem GetIdentityPortMap_vals_nil (d : ConfigDoc) (pk : Line) (active : List Line)
    (hvals : GetBrevHostValues d pk = []) :
    GetIdentityPortMap d pk active = identityLoop active none none none 2222 := by
  unfold GetIdentityPortMap SSHConfigGetBrevHostValueSet SSHConfigGetBrevPorts
  rw [hvals]
  rfl

theorem GetIdentityPortMap_vals_ne_nil (d : ConfigDoc) (pk : Line) (active : List Line)
    (hvals : GetBrevHostValues d pk ≠ []) :
    GetIdentityPortMap d pk active = Except.error () := by
  unfold GetIdentityPortMap
  rw [SSHConfigGetBrevHostValueSet_error d pk hvals]
  rfl

/-! ### Claim theorems -/

/-- C1: running a full reconciliation pass a second time with the same active
workspace set leaves every managed entry's alias→port mapping unchanged — for
every alias in the active set, the port recorded in the persisted document
after the second run equals the port after the first run. -/
theorem claim1_reconcile_idempotent_lookup (pk w : Line) (active : List Line)
    (t : ConfigText) (hw : w ∈ active) :
    docGet (reconcile pk active (serialize (reconcile pk active t))) w portKey
      = docGet (reconcile pk active t) w portKey := by
  have hX : parse (serialize (reconcile pk active t)) = reconcile pk active t :=
    parse_serialize _ (WFDoc_reconcile pk active t)
  show docGet (PruneInactiveWorkspaces pk active (CreateBrevSSHConfigEntries pk active
      (parse (serialize (reconcile pk active t))))) w portKey = _
  rw [hX]
  exact second_sync_lookup pk active (parse t) (parse_wf t) w hw

/-- Witness for C1 at a concrete input. -/
theorem claim1_witness :
    docGet (reconcile "/pk".toList ["a".toList]
        (serialize (reconcile "/pk".toList ["a".toList] []))) "a".toList portKey
      = docGet (reconcile "/pk".toList ["a".toList] []) "a".toList portKey :=
  claim1_reconcile_idempotent_lookup "/pk".toList "a".toList ["a".toList] [] (by decide)

/-- C2: a host block that is not managed (no IdentityFile directive equal to
the private-key path) is never added, removed, or rewritten by a
reconciliation pass — the non-managed blocks of the output are exactly the
non-managed blocks of the input, in order and verbatim, and the preamble is
untouched. -/
theorem claim2_isolation (pk : Line) (active : List Line) (t : ConfigText) :
    (reconcile pk active t).preamble = (parse t).preamble ∧
      (reconcile pk active t).hosts.filter (fun b => !checkIfBrevHost b pk)
        = (parse t).hosts.filter (fun b => !checkIfBrevHost b pk) := by
  rw [reconcile_eq]
  refine ⟨rfl, ?_⟩
  show (((parse t).hosts ++ _).filter _).filter _ = _
  rw [List.filter_filter, List.filter_append]
  have hN : ∀ b ∈ (CreateEntriesLoop pk (GetBrevHostValues (parse t) pk) active
      (GetBrevPorts (parse t) (GetBrevHostValues (parse t) pk)) 2222).1,
      checkIfBrevHost b pk = true := by
    intro b hb
    obtain ⟨w', q, _, _, rfl⟩ := CreateEntriesLoop_mem_blocks pk _ active _ 2222 b hb
    exact checkIfBrevHost_MakeSSHEntry w' (natChars q) pk
  have hNnil : ((CreateEntriesLoop pk (GetBrevHostValues (parse t) pk) active
      (GetBrevPorts (parse t) (GetBrevHostValues (parse t) pk)) 2222).1).filter
        (fun b => !checkIfBrevHost b pk &&
          (!checkIfBrevHost b pk || checkIfHostIsActive b active)) = [] := by
    rw [List.filter_eq_nil_iff]
    intro b hb
    simp [hN b hb]
  have hmain : ((parse t).hosts).filter
      (fun b => !checkIfBrevHost b pk &&
        (!checkIfBrevHost b pk || checkIfHostIsActive b active))
      = ((parse t).hosts).filter (fun b => !checkIfBrevHost b pk) := by
    apply List.filter_congr
    intro b _
    cases hbv : checkIfBrevHost b pk <;> simp [hbv]
  rw [hNnil, hmain, List.append_nil]

/-- C3: each newly created entry receives the textual form of the smallest
integer ≥ 2222 not present in the current port-usage set, and the chosen port
is immediately added to the working set so the next allocation differs; in
particular reconciling an empty configuration with active set [a, b] yields
managed entries a→2222 and b→2223. -/
theorem claim3_port_allocation :
    (∀ (pk : Line) (vals ports : List Line) (p : Nat) (w : Line) (ws : List Line),
        2222 ≤ p →
        (∀ r, 2222 ≤ r → r < p → ports.contains (natChars r) = true) →
        vals.contains w = false →
        (CreateEntriesLoop pk vals (w :: ws) ports p).2
            = (w, natChars (probe (ports.length + 1) ports p))
              :: (CreateEntriesLoop pk vals ws
                  (natChars (probe (ports.length + 1) ports p) :: ports)
                  (probe (ports.length + 1) ports p)).2 ∧
          ports.contains (natChars (probe (ports.length + 1) ports p)) = false ∧
          2222 ≤ probe (ports.length + 1) ports p ∧
          (∀ r, 2222 ≤ r → r < probe (ports.length + 1) ports p →
            ports.contains (natChars r) = true) ∧
          (natChars (probe (ports.length + 1) ports p) :: ports).contains
            (natChars (probe (ports.length + 1) ports p)) = true) ∧
      GetConfiguredWorkspacePort (reconcile "/pk".toList ["a".toList, "b".toList] [])
        "a".toList = some "2222".toList ∧
      GetConfiguredWorkspacePort (reconcile "/pk".toList ["a".toList, "b".toList] [])
        "b".toList = some "2223".toList := by
  refine ⟨?_, by decide, by decide⟩
  intro pk vals ports p w ws hp hinv hvw
  have hpr := probe_found ports p
  have hle := hpr.2.1
  refine ⟨?_, hpr.1, by omega, ?_, by simp⟩
  · rw [CreateEntriesLoop, if_neg (fun hc => by rw [hvw] at hc; exact Bool.noConfusion hc)]
  · intro r h1 h2
    by_cases hrp : r < p
    · exact hinv r h1 hrp
    · exact hpr.2.2 r (by omega) h2

/-- Witness for C3 at a concrete input: with 2222 already claimed, the next
identifier gets 2223. -/
theorem claim3_witness :
    (CreateEntriesLoop "/pk".toList [] ["b".toList] ["2222".toList] 2222).2
        = ("b".toList, "2223".toList)
            :: (CreateEntriesLoop "/pk".toList [] [] ("2223".toList :: ["2222".toList]) 2223).2 ∧
      ["2222".toList].contains "2223".toList = false ∧
      2222 ≤ 2223 ∧
      (∀ r, 2222 ≤ r → r < 2223 → ["2222".toList].contains (natChars r) = true) ∧
      ("2223".toList :: ["2222".toList]).contains "2223".toList = true :=
  claim3_port_allocation.1 "/pk".toList [] ["2222".toList] 2222 "b".toList []
    (by omega) (fun r h1 h2 => absurd (Nat.lt_of_le_of_lt h1 h2) (Nat.lt_irrefl 2222))
    (by decide)

/-- C4 as amended: a port in the usage set seeded by GetBrevPorts over the
managed aliases of the loaded document — including entries of blocks pruned
later in the same pass — is never assigned to a newly created entry, and
Scenario B holds: from a→2222, b→2223 with active set [a, c], a keeps 2222,
b is removed, and c receives 2224. -/
theorem claim4_create_before_prune :
    (∀ (pk : Line) (active : List Line) (t : ConfigText) (w q : Line),
        (w, q) ∈ createdMapping pk active (parse t) →
        (GetBrevPorts (parse t) (GetBrevHostValues (parse t) pk)).contains q = false) ∧
      GetConfiguredWorkspacePort
        (reconcile "/pk".toList ["a".toList, "c".toList] scenarioBText) "a".toList
        = some "2222".toList ∧
      GetConfiguredWorkspacePort
        (reconcile "/pk".toList ["a".toList, "c".toList] scenarioBText) "c".toList
        = some "2224".toList ∧
      GetBrevHostValues (reconcile "/pk".toList ["a".toList, "c".toList] scenarioBText)
        "/pk".toList = ["a".toList, "c".toList] := by
  refine ⟨?_, by decide, by decide, by decide⟩
  intro pk active t w q hm
  exact CreateEntriesLoop_avoids pk _ active _ 2222 w q hm

/-- Counterexample to C4 as stated: with two managed blocks both aliased a
(ports 2222 and 2223), the port 2223 is textually present in a managed block
of the loaded document, yet it is assigned to the new entry b. -/
theorem claim4_counterexample :
    ((parse dupAliasText).hosts.filter
        (fun b => checkIfBrevHost b "/pk".toList)).filterMap (findKV portKey)
      = ["2222".toList, "2223".toList] ∧
    ("b".toList, "2223".toList)
      ∈ createdMapping "/pk".toList ["a".toList, "b".toList] (parse dupAliasText) := by
  decide

/-- Witness for C4 at a concrete input. -/
theorem claim4_witness :
    (GetBrevPorts (parse scenarioBText)
        (GetBrevHostValues (parse scenarioBText) "/pk".toList)).contains "2224".toList
      = false :=
  claim4_create_before_prune.1 "/pk".toList ["a".toList, "c".toList] scenarioBText
    "c".toList "2224".toList (by decide)

/-- C5 as amended: the ports assigned to newly created entries within one pass
are pairwise distinct and none of them equals a port in the seeded usage set;
pre-existing managed entries keep their text, so a port collision in the
output can only reflect a collision or first-match shadowing already present
in the loaded document. -/
theorem claim5_no_new_collisions (pk : Line) (active : List Line) (t : ConfigText) :
    ((createdMapping pk active (parse t)).map Prod.snd).Nodup ∧
      ∀ w q : Line, (w, q) ∈ createdMapping pk active (parse t) →
        (GetBrevPorts (parse t) (GetBrevHostValues (parse t) pk)).contains q = false :=
  ⟨CreateEntriesLoop_snd_nodup pk _ active _ 2222,
    fun w q hm => CreateEntriesLoop_avoids pk _ active _ 2222 w q hm⟩

/-- Counterexample to C5 as stated: two managed entries with distinct aliases
both carrying Port 2229 survive a pass untouched, so the persisted document
has two managed entries sharing a Port value. -/
theorem claim5_counterexample :
    ((reconcile "/pk".toList ["a".toList, "b".toList] samePortText).hosts.filter
        (fun b => checkIfBrevHost b "/pk".toList)).map hostnameFromString
      = ["a".toList, "b".toList] ∧
    ((reconcile "/pk".toList ["a".toList, "b".toList] samePortText).hosts.filter
        (fun b => checkIfBrevHost b "/pk".toList)).map (findKV portKey)
      = [some "2229".toList, some "2229".toList] := by
  decide

/-- Witness for C5 at a concrete input. -/
theorem claim5_witness :
    (GetBrevPorts (parse samePortText)
        (GetBrevHostValues (parse samePortText) "/pk".toList)).contains "2222".toList
      = false :=
  (claim5_no_new_collisions "/pk".toList ["a".toList, "b".toList, "c".toList]
      samePortText).2 "c".toList "2222".toList (by decide)

/-- C6 as amended: the port lookup fails with the no-value (NotFound) outcome
exactly when no host block — managed or not — whose alias equals the requested
identifier carries a Port directive in the loaded document; otherwise it
returns the Port of the first such block: the document splits around a block
with that alias carrying the returned Port, and every earlier block with that
alias lacks the Port directive. -/
theorem claim6_lookup_characterization (d : ConfigDoc) (w : Line) :
    (GetConfiguredWorkspacePort d w = none ↔
        ∀ b ∈ d.hosts, hostnameFromString b = w → findKV portKey b = none) ∧
      ∀ v, GetConfiguredWorkspacePort d w = some v →
        ∃ l₁ b l₂, d.hosts = l₁ ++ b :: l₂ ∧
          hostnameFromString b = w ∧ findKV portKey b = some v ∧
          ∀ b' ∈ l₁, hostnameFromString b' = w → findKV portKey b' = none := by
  constructor
  · rw [GetConfiguredWorkspacePort, docGet, findSome?_eq_none_iff]
    constructor
    · intro h b hb hbw
      have := h b hb
      rw [if_pos hbw] at this
      exact this
    · intro h b hb
      by_cases hbw : hostnameFromString b = w
      · rw [if_pos hbw]
        exact h b hb hbw
      · rw [if_neg hbw]
  · intro v hv
    rw [GetConfiguredWorkspacePort, docGet] at hv
    obtain ⟨l₁, b, l₂, hsplit, hfb, hpre⟩ := findSome?_eq_some_first _ _ v hv
    by_cases hbw : hostnameFromString b = w
    · rw [if_pos hbw] at hfb
      refine ⟨l₁, b, l₂, hsplit, hbw, hfb, ?_⟩
      intro b' hb' hbw'
      have := hpre b' hb'
      rw [if_pos hbw'] at this
      exact this
    · rw [if_neg hbw] at hfb
      exact Option.noConfusion hfb

/-- Counterexample to C6 as stated: a document whose only alias-a block is
foreign (not managed) still answers the lookup with its Port — it does not
fail although no managed block with that alias carries a Port directive. -/
theorem claim6_counterexample :
    (parse foreignAText).hosts.filter (fun b => checkIfBrevHost b "/pk".toList) = [] ∧
      GetConfiguredWorkspacePort (parse foreignAText) "a".toList
        = some "7777".toList := by
  decide

/-- Witness for C6 at a concrete input. -/
theorem claim6_witness :
    ∃ l₁ b l₂, (parse foreignAText).hosts = l₁ ++ b :: l₂ ∧
      hostnameFromString b = "a".toList ∧ findKV portKey b = some "7777".toList ∧
      ∀ b' ∈ l₁, hostnameFromString b' = "a".toList → findKV portKey b' = none :=
  (claim6_lookup_characterization (parse foreignAText) "a".toList).2 "7777".toList
    (by decide)

/-- C7: SSHConfigurer.GetIdentityPortMap assigns into a never-initialized
(nil) IdentityPortMap, so it faults whenever some active identifier lacks a
managed entry; it can return successfully only when no new entry is needed;
and SSHConfig.GetBrevPorts faults whenever the document contains at least one
managed host. -/
theorem claim7_nil_map_faults :
    (∀ (d : ConfigDoc) (pk : Line) (active : List Line),
        (∃ w ∈ active, (GetBrevHostValues d pk).contains w = false) →
        GetIdentityPortMap d pk active = Except.error ()) ∧
      (∀ (d : ConfigDoc) (pk : Line) (active : List Line) (m : Option (List (Line × Line))),
        GetIdentityPortMap d pk active = Except.ok m →
        ∀ w ∈ active, (GetBrevHostValues d pk).contains w = true) ∧
      ∀ (d : ConfigDoc) (pk : Line), GetBrevHostValues d pk ≠ [] →
        SSHConfigGetBrevPorts d pk = Except.error () := by
  refine ⟨?_, ?_, fun d pk h => SSHConfigGetBrevPorts_error d pk h⟩
  · intro d pk active h
    by_cases hvals : GetBrevHostValues d pk = []
    · rw [GetIdentityPortMap_vals_nil d pk active hvals]
      obtain ⟨w, hw, _⟩ := h
      exact identityLoop_error_nilmap active none none 2222 ⟨w, hw, rfl⟩
    · exact GetIdentityPortMap_vals_ne_nil d pk active hvals
  · intro d pk active m hok w hw
    by_cases hvals : GetBrevHostValues d pk = []
    · rw [GetIdentityPortMap_vals_nil d pk active hvals] at hok
      have := identityLoop_ok_all active none none 2222 m hok w hw
      exact Bool.noConfusion this
    · rw [GetIdentityPortMap_vals_ne_nil d pk active hvals] at hok
      exact Except.noConfusion hok

/-- Witness for C7 at a concrete input. -/
theorem claim7_witness :
    GetIdentityPortMap (parse []) "/pk".toList ["a".toList] = Except.error () :=
  claim7_nil_map_faults.1 (parse []) "/pk".toList ["a".toList]
    ⟨"a".toList, by decide, by decide⟩

/-- C8 as amended: the shipped pruning (ssh.go) retains a managed block iff
its extracted alias is exactly string-equal to some identifier of the active
set, with no wildcard semantics; the legacy pattern-matching pruning differs
from it in general (see the counterexample), so the two implementations do
not remove the same set of blocks on every document. -/
theorem claim8_exact_alias_prune (pk : Line) (active : List Line) (t : ConfigText) :
    (PruneInactiveWorkspaces pk active (parse t)).hosts
      = (parse t).hosts.filter
          (fun b => !checkIfBrevHost b pk || active.contains (hostnameFromString b)) := by
  rw [prune_eq pk active (parse t) (parse_wf t)]
  rfl

/-- Counterexample to C8 as stated: on a managed block with header
"Host x y" and active set [y], the exact-alias pruning deletes the block
(alias x is inactive) while the legacy pattern-matching pruning keeps it
(pattern y matches), so the two implementations disagree. -/
theorem claim8_counterexample :
    (PruneInactiveWorkspaces "/pk".toList ["y".toList] (parse multiPatternText)).hosts
        = [] ∧
      (PruneInactiveWorkspacesLegacy "/pk".toList ["y".toList]
          (parse multiPatternText)).hosts = [multiPatternText] ∧
      PruneInactiveWorkspaces "/pk".toList ["y".toList] (parse multiPatternText)
        ≠ PruneInactiveWorkspacesLegacy "/pk".toList ["y".toList]
            (parse multiPatternText) := by
  decide

/-- C9 as amended: for every alias containing no space, and every port and
identity path, rendering a new entry and re-parsing the rendered text yields
exactly one host block, classified as managed for that identity path, whose
extracted alias and Port directive equal the alias and port given to the
renderer. -/
theorem claim9_render_parse_roundtrip (w q pk : Line) (hw : (' ' ∈ w) → False) :
    (parse (MakeSSHEntry w q pk)).preamble = [] ∧
      (parse (MakeSSHEntry w q pk)).hosts = [MakeSSHEntry w q pk] ∧
      checkIfBrevHost (MakeSSHEntry w q pk) pk = true ∧
      hostnameFromString (MakeSSHEntry w q pk) = w ∧
      findKV portKey (MakeSSHEntry w q pk) = some q ∧
      findKV identityFileKey (MakeSSHEntry w q pk) = some pk := by
  have hparse : parse (MakeSSHEntry w q pk) = ⟨[], [MakeSSHEntry w q pk]⟩ := by
    have hfl := parse_flatten [MakeSSHEntry w q pk]
      (by intro b hb
          simp only [List.mem_singleton] at hb
          rw [hb]
          exact WFBlock_MakeSSHEntry w q pk)
    simpa using hfl
  rw [hparse]
  refine ⟨rfl, rfl, checkIfBrevHost_MakeSSHEntry w q pk, ?_,
    findKV_port_MakeSSHEntry w q pk, findKV_identity_MakeSSHEntry w q pk⟩
  rw [hostnameFromString_MakeSSHEntry, splitOnSp_no_space w hw]
  rfl

/-- Counterexample to C9 as stated: rendering the alias "a b" and re-parsing
extracts the alias "a", not "a b". -/
theorem claim9_counterexample :
    (parse (MakeSSHEntry "a b".toList "2222".toList "/pk".toList)).hosts.map
        hostnameFromString = ["a".toList] ∧
      "a".toList ≠ "a b".toList := by
  decide

/-- Witness for C9 at a concrete input. -/
theorem claim9_witness :
    (parse (MakeSSHEntry "a".toList "2222".toList "/pk".toList)).preamble = [] ∧
      (parse (MakeSSHEntry "a".toList "2222".toList "/pk".toList)).hosts
        = [MakeSSHEntry "a".toList "2222".toList "/pk".toList] ∧
      checkIfBrevHost (MakeSSHEntry "a".toList "2222".toList "/pk".toList) "/pk".toList
        = true ∧
      hostnameFromString (MakeSSHEntry "a".toList "2222".toList "/pk".toList)
        = "a".toList ∧
      findKV portKey (MakeSSHEntry "a".toList "2222".toList "/pk".toList)
        = some "2222".toList ∧
      findKV identityFileKey (MakeSSHEntry "a".toList "2222".toList "/pk".toList)
        = some "/pk".toList :=
  claim9_render_parse_roundtrip "a".toList "2222".toList "/pk".toList (by decide)

/-- C10: if any stage of a reconciliation pass fails, no later stage runs and
the configuration file is never written — in particular when only the final
write fails, the on-disk configuration is unchanged from before the sync; on
success the file holds exactly the serialized reconciled document, the
write-back being the only operation that overwrites it. -/
theorem claim10_stage_ordering (f : FaultSpec) (pem pk : Line) (active : List Line)
    (st : StoreState) :
    ((Config f pem pk active st).2 = false →
        (Config f pem pk active st).1.configFile = st.configFile) ∧
      ((Config f pem pk active st).2 = true →
        (Config f pem pk active st).1.configFile
            = serialize (reconcile pk active st.configFile) ∧
          f.keyWriteFails = false ∧ f.backupFails = false ∧ f.readFails = false ∧
          f.writeFails = false) := by
  obtain ⟨k, b, r, wr⟩ := f
  cases k <;> cases b <;> cases r <;> cases wr <;> simp [Config]

/-- Witness for C10 at a concrete input: a failing final write leaves the
configuration file unchanged. -/
theorem claim10_witness :
    (Config ⟨false, false, false, true⟩ "pem".toList "/pk".toList ["a".toList]
        ⟨["x".toList], none, none⟩).1.configFile = ["x".toList] :=
  (claim10_stage_ordering ⟨false, false, false, true⟩ "pem".toList "/pk".toList
      ["a".toList] ⟨["x".toList], none, none⟩).1 (by decide)
